import Mathlib

/-!
Shallow embedding of `src/HTMLTableKit.ts` (class `HTMLTableKit`): a typed
in-memory model of an HTML table kept in sync with the DOM tree across
synchronous and asynchronous CRUD operations.

JavaScript semantics are modelled explicitly:
* JS runtime values stored in rows become the inductive `JSValue`
  (strings, numbers as `Int`/`ℚ`, booleans, `null`, `NaN`, infinities,
  `undefined`).
* JS objects (`TableRow`, update sets) become insertion-ordered association
  lists with unique keys (`JSObject`), with `Object.assign` / spread / `in`
  modelled by `objAssign` / `objSet` / `objGet`.
* `Number(s)`, `parseInt(s, 10)`, `parseFloat(s)` are modelled on the
  decimal/hex grammars they accept; `String(v)` by `jsToString` (the exact
  decimal rendering of a float is irrelevant to every theorem below — it only
  has to be a function of the value).
* The DOM table becomes `TableTree`: an optional `thead` region, a flag for
  the presence of a `tbody`, and the list of body rows (rows of the `tbody`
  when present, otherwise rows sitting directly under the table); cells carry
  their tag kind (`th`/`td`) and text. `innerHTML` assignment is modelled as
  storing the raw string (no HTML reparsing), which no claim depends on.
-/

namespace HTMLTableKit

/-- JS runtime values as stored in a `TableRow` and rendered into the DOM. -/
inductive JSValue where
  | str (s : String)
  | int (n : Int)
  | rat (q : ℚ)
  | bool (b : Bool)
  | null
  | nan
  | inf (pos : Bool)
  | undef
deriving DecidableEq, Repr

/-- JS truthiness of a `JSValue` (`if (v)`): falsy values are `""`, `0`,
`false`, `null`, `NaN` and `undefined`. -/
def truthy : JSValue → Bool
  | .str s => s ≠ ""
  | .int n => n ≠ 0
  | .rat q => q ≠ 0
  | .bool b => b
  | .null => false
  | .nan => false
  | .inf _ => true
  | .undef => false

/-- Whitespace for `String.prototype.trim` (the ASCII part, which is all the
source's tables use). -/
def jsIsWS (c : Char) : Bool :=
  c = ' ' ∨ c = '\t' ∨ c = '\n' ∨ c = '\r' ∨ c = '\x0b' ∨ c = '\x0c'

/-- Model of `s.trim()`. -/
def jsTrim (s : String) : String :=
  ⟨((s.data.dropWhile jsIsWS).reverse.dropWhile jsIsWS).reverse⟩

/-- Model of `s.toLowerCase()` (ASCII case mapping). -/
def jsToLower (s : String) : String :=
  ⟨s.data.map Char.toLower⟩

/-- Model of `s.length` for the BMP strings the source handles. -/
def jsLen (s : String) : Nat := s.data.length

/-- Model of `s.includes(c)` for a one-character needle. -/
def jsIncludes (s : String) (c : Char) : Bool := s.data.contains c

/-- Decimal digits of `n`, most significant first, by fuel-counted division
(the fuel `n` itself always suffices). -/
def natToStrAux : Nat → Nat → List Char
  | 0, _ => []
  | fuel + 1, n =>
    if n = 0 then [] else natToStrAux fuel (n / 10) ++ [Char.ofNat (48 + n % 10)]

/-- Decimal rendering of a natural number, as a JS template literal
`${index}` renders a nonnegative integer. -/
def natToStr (n : Nat) : String :=
  if n = 0 then "0" else ⟨natToStrAux n n⟩

/-- Numeric value of a digit string, inverse of `natToStrAux`. -/
def strVal (cs : List Char) : Nat :=
  cs.foldl (fun a c => a * 10 + (c.toNat - 48)) 0

theorem strVal_append_digit (cs : List Char) (c : Char) :
    strVal (cs ++ [c]) = strVal cs * 10 + (c.toNat - 48) := by
  simp [strVal, List.foldl_append]

theorem strVal_natToStrAux : ∀ (fuel n : Nat), n ≤ fuel →
    strVal (natToStrAux fuel n) = n := by
  intro fuel
  induction fuel with
  | zero => intro n hn; interval_cases n; simp [natToStrAux, strVal]
  | succ fuel ih =>
    intro n hn
    by_cases h0 : n = 0
    · simp [natToStrAux, h0, strVal]
    · have hdiv : n / 10 ≤ fuel := by
        have : n / 10 < n := Nat.div_lt_self (Nat.pos_of_ne_zero h0) (by omega)
        omega
      have hmod : n % 10 < 10 := Nat.mod_lt _ (by omega)
      simp only [natToStrAux, h0, if_false, strVal_append_digit, ih _ hdiv]
      have : (Char.ofNat (48 + n % 10)).toNat = 48 + n % 10 := by
        interval_cases h : n % 10 <;> simp_all
      rw [this]
      omega

theorem natToStrAux_ne_nil (n : Nat) (hn : n ≠ 0) : natToStrAux n n ≠ [] := by
  cases n with
  | zero => exact absurd rfl hn
  | succ m => simp [natToStrAux]

/-- Decimal rendering is injective, so distinct synthetic row indices give
distinct row identities. -/
theorem natToStr_injective : Function.Injective natToStr := by
  intro m n h
  by_cases hm : m = 0 <;> by_cases hn : n = 0
  · omega
  · exfalso
    simp only [natToStr, hm, hn, if_true, if_false] at h
    have hdata : ("0" : String).data = natToStrAux n n := congrArg String.data h
    have := strVal_natToStrAux n n le_rfl
    rw [← hdata] at this
    simp [strVal] at this
    omega
  · exfalso
    simp only [natToStr, hm, hn, if_true, if_false] at h
    have hdata : natToStrAux m m = ("0" : String).data := congrArg String.data h
    have := strVal_natToStrAux m m le_rfl
    rw [hdata] at this
    simp [strVal] at this
    omega
  · simp only [natToStr, hm, hn, if_false] at h
    have hdata : natToStrAux m m = natToStrAux n n := congrArg String.data h
    have h1 := strVal_natToStrAux m m le_rfl
    have h2 := strVal_natToStrAux n n le_rfl
    rw [hdata] at h1
    omega

/-- Splits a leading run of decimal digits. -/
def spanDigits (cs : List Char) : List Char × List Char :=
  (cs.takeWhile Char.isDigit, cs.dropWhile Char.isDigit)

/-- Accepts a nonempty all-digit list. -/
def digits1 (cs : List Char) : Bool := !cs.isEmpty && cs.all Char.isDigit

/-- Accepts an optional exponent part `[eE][+-]?digits` closing the string. -/
def expOk : List Char → Bool
  | [] => true
  | c :: rest =>
    (c == 'e' || c == 'E') &&
      (match rest with
       | '+' :: r => digits1 r
       | '-' :: r => digits1 r
       | r => digits1 r)

/-- Accepts an unsigned decimal mantissa (`digits [. digits]` or `. digits`)
followed by an optional exponent, covering the whole list. -/
def mantissaExp (cs : List Char) : Bool :=
  let (ip, r1) := spanDigits cs
  if ip.isEmpty then
    match r1 with
    | '.' :: r2 =>
      let (fp, r3) := spanDigits r2
      !fp.isEmpty && expOk r3
    | _ => false
  else
    match r1 with
    | '.' :: r2 =>
      let (_, r3) := spanDigits r2
      expOk r3
    | _ => expOk r1

/-- Accepts a hex / octal / binary integer literal (`0x…`, `0o…`, `0b…`). -/
def radixLit (cs : List Char) : Bool :=
  match cs with
  | '0' :: c :: rest =>
    ((c == 'x' || c == 'X') && !rest.isEmpty && rest.all (fun d => d.isDigit ||
        ('a' ≤ d && d ≤ 'f') || ('A' ≤ d && d ≤ 'F'))) ||
    ((c == 'o' || c == 'O') && !rest.isEmpty && rest.all (fun d => '0' ≤ d && d ≤ '7')) ||
    ((c == 'b' || c == 'B') && !rest.isEmpty && rest.all (fun d => d == '0' || d == '1'))
  | _ => false

/-- Accepts a signed JS numeric body: decimal literal or `Infinity` (hex,
octal and binary only unsigned). -/
def jsNumericBody (cs : List Char) : Bool :=
  match cs with
  | '+' :: r => mantissaExp r || r == "Infinity".data
  | '-' :: r => mantissaExp r || r == "Infinity".data
  | _ => mantissaExp cs || cs == "Infinity".data || radixLit cs

/-- Model of `!isNaN(Number(s))`: whether `Number(s)` yields a number rather
than `NaN` (`Number("")` is `0`, hence numeric). -/
def jsIsNumeric (s : String) : Bool :=
  let cs := (jsTrim s).data
  cs.isEmpty || jsNumericBody cs

/-- Numeric value of a digit list, most significant first. -/
def digitsToNat (cs : List Char) : Nat :=
  cs.foldl (fun a c => a * 10 + (c.toNat - 48)) 0

/-- Model of `parseInt(s, 10)`: optional sign then a leading run of decimal
digits; no digits means `NaN`. -/
def parseIntJS (s : String) : JSValue :=
  let cs := (jsTrim s).data
  let core : List Char → Int → JSValue := fun r sign =>
    let ds := r.takeWhile Char.isDigit
    if ds = [] then .nan else .int (sign * (digitsToNat ds : Int))
  match cs with
  | '+' :: r => core r 1
  | '-' :: r => core r (-1)
  | _ => core cs 1

/-- Model of `parseFloat(s)`: value of the longest leading decimal-literal
prefix (optionally signed, with fraction and exponent, or `Infinity`); no
valid prefix means `NaN`. -/
def parseFloatJS (s : String) : JSValue :=
  let cs := (jsTrim s).data
  let signed : List Char → Bool × List Char := fun l =>
    match l with
    | '+' :: r => (true, r)
    | '-' :: r => (false, r)
    | _ => (true, l)
  let (pos, body) := signed cs
  if "Infinity".data.isPrefixOf body then .inf pos
  else
    let (ip, r1) := spanDigits body
    let (fp, r2) :=
      match r1 with
      | '.' :: t => spanDigits t
      | _ => ([], r1)
    if ip = [] ∧ fp = [] then .nan
    else
      let mant : ℚ := (digitsToNat ip : ℚ) + (digitsToNat fp : ℚ) / (10 : ℚ) ^ fp.length
      let expv : Int :=
        match r2 with
        | 'e' :: t | 'E' :: t =>
          let (es, t') :=
            match t with
            | '+' :: u => ((1 : Int), u)
            | '-' :: u => ((-1 : Int), u)
            | u => ((1 : Int), u)
          let ds := t'.takeWhile Char.isDigit
          if ds = [] then 0 else es * (digitsToNat ds : Int)
        | _ => 0
      let v : ℚ := mant * (10 : ℚ) ^ expv
      .rat (if pos then v else -v)

/-- Decimal rendering of a rational with up to 20 fractional digits, used to
model `String(x)` on a JS number; every theorem below treats the rendering as
an opaque function of the value. -/
def ratToString (q : ℚ) : String :=
  let sign := if q < 0 then "-" else ""
  let a := |q|
  let ip := a.num.natAbs / a.den
  let rest : ℚ := a - (ip : ℚ)
  if rest = 0 then sign ++ natToStr ip
  else
    let fd := ((rest * (10 : ℚ) ^ (20 : Nat)).floor).toNat
    let ds := natToStrAux fd fd
    let padded := List.replicate (20 - ds.length) '0' ++ ds
    sign ++ natToStr ip ++ "." ++ ⟨(padded.reverse.dropWhile (· = '0')).reverse⟩

/-- Model of JS string conversion `String(v)` (and the implicit conversion of
an `innerHTML` assignment). -/
def jsToString : JSValue → String
  | .str s => s
  | .int n => (if n < 0 then "-" else "") ++ natToStr n.natAbs
  | .rat q => ratToString q
  | .bool b => if b then "true" else "false"
  | .null => "null"
  | .nan => "NaN"
  | .inf pos => if pos then "Infinity" else "-Infinity"
  | .undef => "undefined"

/-- The column data types of the source (`spec` names in parentheses):
`string` (Text), `number` (Integer), `decimal` (Decimal), `boolean`
(Boolean), `free` (Raw). -/
inductive DataType where
  | string
  | number
  | decimal
  | boolean
  | free
deriving DecidableEq, Repr

/-- Model of `detectColumnType(values)` (HTMLTableKit.ts lines 251–277),
transcribed branch for branch. -/
def detectColumnType (values : List String) : DataType :=
  if values = [] then .string
  else if values.any (fun v => jsIncludes v '<' ∨ jsIncludes v '>' ∨ jsLen v > 100) then .free
  else if values.all (fun v => v = "" ∨ jsToLower v = "true" ∨ jsToLower v = "false") then
    .boolean
  else
    let numericValues := values.filter (fun v => v ≠ "")
    if numericValues = [] then .string
    else if ¬ numericValues.all jsIsNumeric then .string
    else if numericValues.any (fun v => jsIncludes v '.') then .decimal
    else .number

/-- Modelled from the claim's wording of the decision order, for comparison
with `detectColumnType`: the four steps applied in order, first match
winning. -/
def inferTypeOrdered (values : List String) : DataType :=
  if values = [] then .string
  else if values.any (fun v => jsIncludes v '<' ∨ jsIncludes v '>' ∨ jsLen v > 100) then .free
  else if values.all (fun v => v = "" ∨ jsToLower v = "true" ∨ jsToLower v = "false") then
    .boolean
  else
    let nonEmpty := values.filter (fun v => v ≠ "")
    if nonEmpty ≠ [] ∧ nonEmpty.all jsIsNumeric then
      if nonEmpty.any (fun v => jsIncludes v '.') then .decimal else .number
    else .string

theorem numericTailEq (l : List String) :
    (if l = [] then DataType.string
     else if ¬ l.all jsIsNumeric then DataType.string
     else if l.any (fun v => jsIncludes v '.') then DataType.decimal else DataType.number) =
    (if l ≠ [] ∧ l.all jsIsNumeric then
       (if l.any (fun v => jsIncludes v '.') then DataType.decimal else DataType.number)
     else DataType.string) := by
  by_cases h1 : l = [] <;> by_cases h2 : (l.all jsIsNumeric) = true <;> simp [h1, h2]

theorem detectColumnType_eq_inferTypeOrdered (values : List String) :
    detectColumnType values = inferTypeOrdered values := by
  unfold detectColumnType inferTypeOrdered
  exact if_congr Iff.rfl rfl (if_congr Iff.rfl rfl (if_congr Iff.rfl rfl (numericTailEq _)))

/-- C1: the column type inference (`detectColumnType`) applies the claim's
four decision steps in order — empty column → Text (`string`); any value
containing `<` or `>` or longer than 100 characters → Raw (`free`); every
value empty or case-insensitively true/false → Boolean; after discarding
empties, all numeric → Integer (`number`) unless some value contains `.`,
then Decimal; otherwise Text — first match winning, and in particular the
five example columns get the claimed types. -/
theorem C1_inferType_decision_order :
    (∀ values : List String, detectColumnType values = inferTypeOrdered values) ∧
    detectColumnType ["1", "2", "3"] = .number ∧
    detectColumnType ["1.5", "2"] = .decimal ∧
    detectColumnType ["true", "false", ""] = .boolean ∧
    detectColumnType ["<b>x</b>"] = .free ∧
    detectColumnType ["a", "1"] = .string :=
  ⟨detectColumnType_eq_inferTypeOrdered, by decide, by decide, by decide,
    by decide, by decide⟩

/-- A JS object as an insertion-ordered association list with unique keys
(`TableRow` and the partial-row / update-set arguments). -/
abbrev JSObject := List (String × JSValue)

/-- Model of reading property `k` (`o[k]`), as `none` when absent. -/
def objGet (o : JSObject) (k : String) : Option JSValue :=
  (o.find? (fun p => p.1 == k)).map (·.2)

/-- Model of writing property `k`: overwrite in place, or append a new key. -/
def objSet : JSObject → String → JSValue → JSObject
  | [], k, v => [(k, v)]
  | (k', v') :: rest, k, v =>
    if k' == k then (k, v) :: rest else (k', v') :: objSet rest k v

/-- Model of `Object.assign(target, updates)` (also of object spread). -/
def objAssign (target updates : JSObject) : JSObject :=
  updates.foldl (fun acc p => objSet acc p.1 p.2) target

/-- Model of the `in` operator (`header.name in newRow`). -/
def objHas (o : JSObject) (k : String) : Bool := (objGet o k).isSome

/-- A table cell: its tag kind (`th` or `td`) and its text content. -/
structure Cell where
  isTh : Bool
  text : String
deriving DecidableEq, Repr

/-- A `tr` element: its `data-id` attribute and its cells in order. -/
structure TreeRow where
  dataId : Option String
  cells : List Cell
deriving DecidableEq, Repr

/-- A hidden `input` inside the table: its `id` / `name` attributes, `value`
and text content (empty string when absent, as the DOM getters return). -/
structure HiddenInputEl where
  idAttr : String
  nameAttr : String
  value : String
  textContent : String
deriving DecidableEq, Repr

/-- The external DOM table: id and name attributes, hidden inputs, an
optional `thead` region with its rows, whether a `tbody` exists, and the body
rows (the `tbody`'s rows when one exists, else rows directly under the
table). Document order is `thead` rows first, then body rows. -/
structure TableTree where
  tid : String
  tname : String
  hidden : List HiddenInputEl
  theadRows : Option (List TreeRow)
  hasTbody : Bool
  bodyRows : List TreeRow
deriving DecidableEq, Repr

/-- All `tr` elements of the table in document order
(`table.querySelectorAll('tr')`). -/
def allTreeRows (t : TableTree) : List TreeRow :=
  t.theadRows.getD [] ++ t.bodyRows

/-- Model of `querySelector('thead tr')`. -/
def theadFirstTr (t : TableTree) : Option TreeRow :=
  t.theadRows.bind List.head?

/-- Model of `querySelector('tr:first-child')`: the first row in document
order that is the first `tr` child of its parent (`thead`, `tbody`, or the
table itself). -/
def firstChildTr (t : TableTree) : Option TreeRow :=
  match t.theadRows with
  | some (r :: _) => some r
  | some [] => if t.hasTbody then t.bodyRows.head? else none
  | none => t.bodyRows.head?

/-- A column: its (lower-cased) name and inferred type. -/
structure TableHeader where
  name : String
  type : DataType
deriving DecidableEq, Repr

/-- Model of `isRowHeader(cells)` (lines 145–151): every cell's trimmed text
is nonempty and does not parse as a number. -/
def isRowHeader (cells : List Cell) : Bool :=
  cells.all fun c =>
    let text := jsTrim c.text
    text != "" && !(jsIsNumeric text)

/-- Model of `createNumericHeaders` (lines 156–163). -/
def numericHeaders (count : Nat) : List TableHeader :=
  (List.range count).map fun i => ⟨"column" ++ natToStr (i + 1), .string⟩

/-- Header name derived from a header cell at `index`: trimmed text or
`column<index+1>` when empty, then lower-cased (lines 104–109, 119–125). -/
def headerNameOfCell (c : Cell) (index : Nat) : String :=
  let headerText :=
    if jsTrim c.text == "" then "column" ++ natToStr (index + 1) else jsTrim c.text
  jsToLower headerText

/-- Model of `parseHeaders` (lines 95–140): the ordered column list, all
provisionally typed `string`. -/
def parseHeaders (t : TableTree) : List TableHeader :=
  match (theadFirstTr t).orElse (fun _ => firstChildTr t) with
  | some headerRow =>
    let ths := headerRow.cells.filter (·.isTh)
    if ths ≠ [] then
      ths.enum.map fun p => ⟨headerNameOfCell p.2 p.1, .string⟩
    else
      let firstRowCells := headerRow.cells.filter (fun c => !c.isTh)
      if firstRowCells ≠ [] then
        if isRowHeader firstRowCells then
          firstRowCells.enum.map fun p => ⟨headerNameOfCell p.2 p.1, .string⟩
        else numericHeaders firstRowCells.length
      else []
  | none =>
    match (allTreeRows t).head? with
    | some firstDataRow => numericHeaders firstDataRow.cells.length
    | none => []

/-- Model of `hasHeaderRow` (lines 217–232). -/
def hasHeaderRow (t : TableTree) : Bool :=
  if t.theadRows.isSome then true
  else
    match firstChildTr t with
    | some firstRow =>
      if firstRow.cells.any (·.isTh) then true
      else isRowHeader (firstRow.cells.filter (fun c => !c.isTh))
    | none => false

/-- The row list `parseRows` and the DOM mutators iterate (lines 169–170,
522–523, 548–549): the `tbody`'s rows when a `tbody` exists, otherwise all
the table's rows. -/
def scannedRows (t : TableTree) : List TreeRow :=
  if t.hasTbody then t.bodyRows else allTreeRows t

/-- The header offset into the scanned rows (lines 173, 524, 550). -/
def startIndex (t : TableTree) : Nat := if hasHeaderRow t then 1 else 0

/-- The rows the engine treats as data rows: the scanned rows after the
header offset (line 175). -/
def dataRowsOf (t : TableTree) : List TreeRow := (scannedRows t).drop (startIndex t)

/-- The identity `generateRowId` returns for a row at `index` (lines
237–246): the row's truthy `data-id` attribute, else `row_<index>`. -/
def generateRowIdStr (r : TreeRow) (index : Nat) : String :=
  match r.dataId with
  | some s => if s == "" then "row_" ++ natToStr index else s
  | none => "row_" ++ natToStr index

/-- The counter advance `generateRowId` performs: `nextRowId` becomes
`max(nextRowId, index + 1)`, but only on the synthetic-id path. -/
def generateRowIdNext (n : Nat) (r : TreeRow) (index : Nat) : Nat :=
  match r.dataId with
  | some s => if s == "" then max n (index + 1) else n
  | none => max n (index + 1)

/-- The raw texts collected for column `j` across the data rows (lines
179–187): a row with no cell at `j` contributes nothing to that column. -/
def columnData (dataRows : List TreeRow) (j : Nat) : List String :=
  dataRows.filterMap fun r => (r.cells[j]?).map fun c => jsTrim c.text

/-- Model of `parseValue(value, type)` (lines 282–295). -/
def parseValue (value : String) (ty : DataType) : JSValue :=
  match ty with
  | .number => if value == "" then .null else parseIntJS value
  | .decimal => if value == "" then .null else parseFloatJS value
  | .boolean => .bool (jsToLower value == "true")
  | .free => .str value
  | .string => .str value

/-- The headers with their final inferred types (lines 190–192). -/
def typedHeaders (t : TableTree) : List TableHeader :=
  (parseHeaders t).enum.map fun p =>
    ⟨p.2.name, detectColumnType (columnData (dataRowsOf t) p.1)⟩

/-- One parsed row (lines 195–209): the identity property, then one property
per cell that has a column at its index, assigned in cell order. -/
def parsedRow (headers : List TableHeader) (r : TreeRow) (index : Nat) : JSObject :=
  r.cells.enum.foldl
    (fun o p =>
      match headers[p.1]? with
      | some h => objSet o h.name (parseValue (jsTrim p.2.text) h.type)
      | none => o)
    [("id", JSValue.str (generateRowIdStr r index))]

/-- The rows `parseRows` pushes into the model (lines 195–211). -/
def parsedRowsOf (t : TableTree) : List JSObject :=
  (dataRowsOf t).enum.map fun p => parsedRow (typedHeaders t) p.2 p.1

/-- The `nextRowId` value after `parseRows` has run (line 244 once per
synthetic identity). -/
def parseNextId (t : TableTree) (n : Nat) : Nat :=
  (dataRowsOf t).enum.foldl (fun m p => generateRowIdNext m p.2 p.1) n

/-- Upsert into the sidecar mapping (JS object property write). -/
def hidSet : List (String × String) → String → String → List (String × String)
  | [], k, v => [(k, v)]
  | (k', v') :: rest, k, v =>
    if k' == k then (k, v) :: rest else (k', v') :: hidSet rest k v

/-- Model of `parseHiddenInputs` (lines 77–90): builds the sidecar mapping;
`none` models the exception for a hidden input with neither id nor name. -/
def parseHiddenInputs (inputs : List HiddenInputEl) : Option (List (String × String)) :=
  inputs.foldlM
    (fun acc inp =>
      let key := if inp.idAttr != "" then inp.idAttr else inp.nameAttr
      if key == "" then none
      else
        let v :=
          if inp.value != "" then inp.value
          else if inp.textContent != "" then inp.textContent else ""
        some (hidSet acc key v))
    []

/-- The parsed structured table. -/
structure TableObject where
  id : String
  name : String
  headers : List TableHeader
  hidden : List (String × String)
  rows : List JSObject
deriving DecidableEq, Repr

/-- Model of `parseTable` (lines 53–72); `none` models the hidden-input
exception propagating out. The `TableObject` produced does not depend on the
engine's counter. -/
def parseTableObj (t : TableTree) : Option TableObject :=
  (parseHiddenInputs t.hidden).map fun hid =>
    { id := t.tid, name := t.tname, headers := typedHeaders t, hidden := hid,
      rows := parsedRowsOf t }

/-- The engine: the external tree, the model, and the synthetic-id counter. -/
structure Engine where
  tree : TableTree
  tableObject : TableObject
  nextRowId : Nat
deriving DecidableEq, Repr

/-- The engine state right after `new HTMLTableKit(...)` succeeds on `t`
(`nextRowId` starts at 0 and is advanced by the parse). -/
def initEngine (t : TableTree) : Option Engine :=
  (parseTableObj t).map fun tobj =>
    { tree := t, tableObject := tobj, nextRowId := parseNextId t 0 }

/-- Model of `getTable` (lines 300–302). -/
def getTable (s : Engine) : TableObject := s.tableObject

/-- Model of `getDefaultValue` (lines 479–492). -/
def getDefaultValue : DataType → JSValue
  | .number => .int 0
  | .decimal => .rat 0
  | .boolean => .bool false
  | .free => .str ""
  | .string => .str ""

/-- The string a cell receives for `row[header.name]` (lines 504–510,
533–539): `innerHTML = value` on a `free` column, `textContent =
String(value)` otherwise; both store the same string in this model. -/
def renderCellText (row : JSObject) (h : TableHeader) : String :=
  jsToString ((objGet row h.name).getD .undef)

/-- The `tr` fragment `addRowToDOM` creates (lines 499–513): tagged with the
row's identity, one `td` per column in column order. -/
def renderedTr (headers : List TableHeader) (row : JSObject) : TreeRow :=
  { dataId := some (jsToString ((objGet row "id").getD .undef)),
    cells := headers.map fun h => { isTh := false, text := renderCellText row h } }

/-- Model of `addRowToDOM` (lines 497–516): append the new `tr` to the
`tbody` when one exists, otherwise to the table itself. -/
def addRowToDOM (t : TableTree) (headers : List TableHeader) (row : JSObject) : TableTree :=
  { t with bodyRows := t.bodyRows ++ [renderedTr headers row] }

/-- Writes `r` at position `idx` of the scanned row list, in whichever region
(`thead` or body) that position falls. -/
def setScannedAt (t : TableTree) (idx : Nat) (r : TreeRow) : TableTree :=
  if t.hasTbody then { t with bodyRows := t.bodyRows.set idx r }
  else
    let th := t.theadRows.getD []
    if idx < th.length then { t with theadRows := some (th.set idx r) }
    else { t with bodyRows := t.bodyRows.set (idx - th.length) r }

/-- Removes the scanned row at position `idx`. -/
def removeScannedAt (t : TableTree) (idx : Nat) : TableTree :=
  if t.hasTbody then { t with bodyRows := t.bodyRows.eraseIdx idx }
  else
    let th := t.theadRows.getD []
    if idx < th.length then { t with theadRows := some (th.eraseIdx idx) }
    else { t with bodyRows := t.bodyRows.eraseIdx (idx - th.length) }

/-- Model of `updateRowInDOM` (lines 521–542): rewrite the existing cells of
the scanned row at `startIndex + rowIndex` in column order; a missing target
row means no DOM change. -/
def updateRowInDOM (t : TableTree) (headers : List TableHeader) (row : JSObject)
    (rowIndex : Nat) : TableTree :=
  let idx := startIndex t + rowIndex
  match (scannedRows t)[idx]? with
  | none => t
  | some domRow =>
    let domRow' : TreeRow :=
      { domRow with
        cells := domRow.cells.enum.map fun p =>
          match headers[p.1]? with
          | some h => { p.2 with text := renderCellText row h }
          | none => p.2 }
    setScannedAt t idx domRow'

/-- Model of `deleteRowFromDOM` (lines 547–556): remove the scanned row at
`startIndex + rowIndex` when it exists. -/
def deleteRowFromDOM (t : TableTree) (rowIndex : Nat) : TableTree :=
  let idx := startIndex t + rowIndex
  if idx < (scannedRows t).length then removeScannedAt t idx else t

/-- Model of `rows.findIndex(row => row.id === id)` as an optional index. -/
def findRowIdx (rows : List JSObject) (id : String) : Option Nat :=
  rows.findIdx? fun r => objGet r "id" == some (JSValue.str id)

/-- The identity value and counter after `rowData.id || row_<nextRowId++>`
(lines 309, 337): a truthy caller identity is kept and the counter is
untouched; otherwise a synthetic identity consumes the counter. -/
def resolveRowId (rowData : JSObject) (n : Nat) : JSValue × Nat :=
  let idv0 := (objGet rowData "id").getD .undef
  if truthy idv0 then (idv0, n) else (.str ("row_" ++ natToStr n), n + 1)

/-- The candidate row `addRow`/`addRowAsync` build before committing (lines
308–318, 336–346): `{ id: …, ...rowData }`, then backfill of each column
absent from it with the column's type default. -/
def buildNewRow (headers : List TableHeader) (rowData : JSObject) (idv : JSValue) : JSObject :=
  let base := objAssign [("id", idv)] rowData
  headers.foldl
    (fun r h => if objHas r h.name then r else r ++ [(h.name, getDefaultValue h.type)])
    base

/-- Model of `addRow` (lines 307–327). -/
def addRow (s : Engine) (rowData : JSObject) : JSObject × Engine :=
  let (idv, n') := resolveRowId rowData s.nextRowId
  let newRow := buildNewRow s.tableObject.headers rowData idv
  let to' := { s.tableObject with rows := s.tableObject.rows ++ [newRow] }
  (newRow,
    { tree := addRowToDOM s.tree s.tableObject.headers newRow,
      tableObject := to', nextRowId := n' })

/-- Model of `addRowAsync` (lines 332–366); the awaited decision function is
a pure function from the candidate row to `none` (cancel) or a replacement
object that is merged into the candidate. -/
def addRowAsync (s : Engine) (rowData : JSObject)
    (beforeAdd : Option (JSObject → Option JSObject)) : Option JSObject × Engine :=
  let (idv, n') := resolveRowId rowData s.nextRowId
  let newRow := buildNewRow s.tableObject.headers rowData idv
  let commit : JSObject → Option JSObject × Engine := fun r =>
    let to' := { s.tableObject with rows := s.tableObject.rows ++ [r] }
    (some r,
      { tree := addRowToDOM s.tree s.tableObject.headers r,
        tableObject := to', nextRowId := n' })
  match beforeAdd with
  | none => commit newRow
  | some f =>
    match f newRow with
    | none => (none, { s with nextRowId := n' })
    | some result => commit (objAssign newRow result)

/-- Model of `updateRow` (lines 371–386). -/
def updateRow (s : Engine) (id : String) (updates : JSObject) : Bool × Engine :=
  match findRowIdx s.tableObject.rows id with
  | none => (false, s)
  | some rowIndex =>
    let row := (s.tableObject.rows[rowIndex]?).getD []
    let row' := objAssign row updates
    let to' := { s.tableObject with rows := s.tableObject.rows.set rowIndex row' }
    (true,
      { s with tableObject := to',
               tree := updateRowInDOM s.tree s.tableObject.headers row' rowIndex })

/-- Model of `updateRowAsync` (lines 391–422); the decision function sees the
current row and the proposed updates, and its truthy result replaces the
update set. -/
def updateRowAsync (s : Engine) (id : String) (updates : JSObject)
    (beforeUpdate : Option (JSObject → JSObject → Option JSObject)) : Bool × Engine :=
  match findRowIdx s.tableObject.rows id with
  | none => (false, s)
  | some rowIndex =>
    let row := (s.tableObject.rows[rowIndex]?).getD []
    let decided :=
      match beforeUpdate with
      | none => some updates
      | some f => f row updates
    match decided with
    | none => (false, s)
    | some u =>
      let row' := objAssign row u
      let to' := { s.tableObject with rows := s.tableObject.rows.set rowIndex row' }
      (true,
        { s with tableObject := to',
                 tree := updateRowInDOM s.tree s.tableObject.headers row' rowIndex })

/-- Model of `deleteRow` (lines 427–441). -/
def deleteRow (s : Engine) (id : String) : Bool × Engine :=
  match findRowIdx s.tableObject.rows id with
  | none => (false, s)
  | some rowIndex =>
    let to' := { s.tableObject with rows := s.tableObject.rows.eraseIdx rowIndex }
    (true, { s with tableObject := to', tree := deleteRowFromDOM s.tree rowIndex })

/-- Model of `deleteRowAsync` (lines 446–474); the decision function sees the
current row and a `false` result cancels the deletion. -/
def deleteRowAsync (s : Engine) (id : String)
    (beforeDelete : Option (JSObject → Bool)) : Bool × Engine :=
  match findRowIdx s.tableObject.rows id with
  | none => (false, s)
  | some rowIndex =>
    let row := (s.tableObject.rows[rowIndex]?).getD []
    let proceed := match beforeDelete with | none => true | some f => f row
    if proceed then
      let to' := { s.tableObject with rows := s.tableObject.rows.eraseIdx rowIndex }
      (true, { s with tableObject := to', tree := deleteRowFromDOM s.tree rowIndex })
    else (false, s)

/-- Model of `refresh` (lines 561–563): reparse the model from the tree;
`none` models a parse exception propagating to the caller. -/
def refresh (s : Engine) : Option Engine :=
  (parseTableObj s.tree).map fun tobj =>
    { s with tableObject := tobj, nextRowId := parseNextId s.tree s.nextRowId }

end HTMLTableKit

namespace HTMLTableKit

theorem objGet_cons (a : String) (b : JSValue) (rest : JSObject) (k : String) :
    objGet ((a, b) :: rest) k = if a = k then some b else objGet rest k := by
  unfold objGet
  by_cases h : a = k
  · rw [List.find?_cons_of_pos _ (by simp [h]), if_pos h]
    rfl
  · rw [List.find?_cons_of_neg _ (by simp [h]), if_neg h]

theorem objGet_objSet (o : JSObject) (k k' : String) (v : JSValue) :
    objGet (objSet o k v) k' = if k' = k then some v else objGet o k' := by
  induction o with
  | nil =>
    show objGet [(k, v)] k' = _
    rw [objGet_cons]
    by_cases h : k' = k
    · rw [if_pos h.symm, if_pos h]
    · rw [if_neg (fun hk : k = k' => h hk.symm), if_neg h]
  | cons p rest ih =>
    obtain ⟨a, b⟩ := p
    by_cases ha : a = k
    · show objGet (if (a == k) = true then (k, v) :: rest else _) k' = _
      rw [if_pos (by simp [ha])]
      rw [objGet_cons, objGet_cons]
      by_cases h : k' = k
      · simp [h]
      · rw [if_neg (fun hk : k = k' => h hk.symm), if_neg h,
          if_neg (fun hk : a = k' => h (ha ▸ hk).symm)]
    · show objGet (if (a == k) = true then (k, v) :: rest else (a, b) :: objSet rest k v) k' = _
      rw [if_neg (by simp [ha])]
      rw [objGet_cons]
      by_cases h2 : a = k'
      · rw [if_pos h2, if_neg (fun hk : k' = k => ha (h2.trans hk)), objGet_cons, if_pos h2]
      · rw [if_neg h2, ih]
        by_cases h : k' = k
        · rw [if_pos h, if_pos h]
        · rw [if_neg h, if_neg h, objGet_cons, if_neg h2]

theorem objGet_objAssign_of_none (t u : JSObject) (k : String)
    (hu : objGet u k = none) : objGet (objAssign t u) k = objGet t k := by
  induction u generalizing t with
  | nil => rfl
  | cons p rest ih =>
    obtain ⟨a, b⟩ := p
    rw [objGet_cons] at hu
    by_cases h : a = k
    · simp [h] at hu
    · rw [if_neg h] at hu
      show objGet (objAssign (objSet t a b) rest) k = _
      rw [ih _ hu, objGet_objSet, if_neg (fun hk : k = a => h hk.symm)]

theorem objGet_append (o₁ o₂ : JSObject) (k : String) :
    objGet (o₁ ++ o₂) k = (objGet o₁ k).or (objGet o₂ k) := by
  cases h : List.find? (fun p => p.1 == k) o₁ <;>
    simp [objGet, List.find?_append, h]

theorem objGet_backfill_id (headers : List TableHeader) (base : JSObject) (v : JSValue)
    (hb : objGet base "id" = some v) :
    objGet
      (headers.foldl
        (fun r h => if objHas r h.name then r else r ++ [(h.name, getDefaultValue h.type)])
        base) "id" = some v := by
  induction headers generalizing base with
  | nil => simpa
  | cons h rest ih =>
    simp only [List.foldl_cons]
    by_cases hh : objHas base h.name
    · rw [if_pos hh]; exact ih base hb
    · rw [if_neg hh]
      exact ih _ (by rw [objGet_append, hb]; rfl)

theorem objGet_buildNewRow_id (headers : List TableHeader) (rowData : JSObject)
    (idv : JSValue) (hid : objGet rowData "id" = none) :
    objGet (buildNewRow headers rowData idv) "id" = some idv := by
  unfold buildNewRow
  exact objGet_backfill_id _ _ _ (by rw [objGet_objAssign_of_none _ _ _ hid]; rfl)

theorem findRowIdx_some_mem (rows : List JSObject) (id : String) (i : Nat)
    (h : findRowIdx rows id = some i) :
    i < rows.length ∧ ∃ r ∈ rows, objGet r "id" = some (JSValue.str id) := by
  unfold findRowIdx at h
  rw [List.findIdx?_eq_some_iff_getElem] at h
  obtain ⟨hlt, hp, _⟩ := h
  exact ⟨hlt, ⟨rows[i], List.getElem_mem hlt, by simpa using hp⟩⟩

/-- A two-row numeric sample table used by the witnesses below. -/
def sampleTree : TableTree :=
  { tid := "t", tname := "", hidden := [], theadRows := none, hasTbody := true,
    bodyRows := [⟨none, [⟨false, "1"⟩]⟩, ⟨none, [⟨false, "2"⟩]⟩] }

/-- The engine state `new HTMLTableKit(...)` produces on `sampleTree`. -/
def sampleEngine : Engine :=
  { tree := sampleTree,
    tableObject :=
      { id := "t", name := "", headers := [⟨"column1", .number⟩], hidden := [],
        rows := [[("id", .str "row_0"), ("column1", .int 1)],
                 [("id", .str "row_1"), ("column1", .int 2)]] },
    nextRowId := 2 }

theorem initEngine_sampleTree : initEngine sampleTree = some sampleEngine := by decide

/-- C9: calling `refresh()` twice in a row with no intervening mutation of
the tree or Model yields equal Model snapshots: `refresh` only reads the
tree, so the second reparse produces the same `TableObject`. -/
theorem C9_refresh_idempotent (s : Engine) :
    ((refresh s).bind refresh).map getTable = (refresh s).map getTable := by
  unfold refresh getTable
  cases h : parseTableObj s.tree <;> simp [h]

/-- C6: when the decision function returns a truthy result `R`,
`updateRowAsync s id U` commits exactly `R`: it behaves as `updateRow s id R`
— the original update set `U` is discarded, not merged. -/
theorem C6_updateRowAsync_result_replaces (s : Engine) (id : String) (U R : JSObject)
    (f : JSObject → JSObject → Option JSObject) (i : Nat)
    (hfind : findRowIdx s.tableObject.rows id = some i)
    (hf : f ((s.tableObject.rows[i]?).getD []) U = some R) :
    updateRowAsync s id U (some f) = updateRow s id R := by
  unfold updateRowAsync updateRow
  rw [hfind]
  simp [hf]

/-- Witness for C6 at a concrete engine and decision function. -/
theorem C6_witness :
    updateRowAsync sampleEngine "row_0" [("column1", JSValue.int 9)]
        (some fun _ _ => some [("column1", JSValue.int 7)]) =
      updateRow sampleEngine "row_0" [("column1", JSValue.int 7)] :=
  C6_updateRowAsync_result_replaces sampleEngine "row_0" _ _ _ 0 (by decide) rfl

/-- C7: `deleteRowAsync` with a decision function resolving `false` on the
looked-up row returns `false` and leaves the whole engine state (Model and
tree) untouched; a row with that id is still present afterward. -/
theorem C7_deleteRowAsync_cancel (s : Engine) (id : String) (f : JSObject → Bool) (i : Nat)
    (hfind : findRowIdx s.tableObject.rows id = some i)
    (hf : f ((s.tableObject.rows[i]?).getD []) = false) :
    deleteRowAsync s id (some f) = (false, s) ∧
    ∃ r ∈ (deleteRowAsync s id (some f)).2.tableObject.rows,
      objGet r "id" = some (JSValue.str id) := by
  have heq : deleteRowAsync s id (some f) = (false, s) := by
    unfold deleteRowAsync
    rw [hfind]
    simp [hf]
  exact ⟨heq, by rw [heq]; exact (findRowIdx_some_mem _ _ _ hfind).2⟩

/-- Witness for C7 at a concrete engine. -/
theorem C7_witness :
    deleteRowAsync sampleEngine "row_0" (some fun _ => false) = (false, sampleEngine) ∧
    ∃ r ∈ (deleteRowAsync sampleEngine "row_0" (some fun _ => false)).2.tableObject.rows,
      objGet r "id" = some (JSValue.str "row_0") :=
  C7_deleteRowAsync_cancel sampleEngine "row_0" _ 0 (by decide) rfl

/-- C8: `updateRow` with an id that equals no row's identity returns `false`
and leaves the Model's row sequence and the tree unchanged. -/
theorem C8_updateRow_missing_id (s : Engine) (id : String) (updates : JSObject)
    (h : ∀ r ∈ s.tableObject.rows, objGet r "id" ≠ some (JSValue.str id)) :
    updateRow s id updates = (false, s) := by
  have hn : findRowIdx s.tableObject.rows id = none := by
    unfold findRowIdx
    rw [List.findIdx?_eq_none_iff]
    intro r hr
    simpa using h r hr
  unfold updateRow
  rw [hn]

/-- Witness for C8 at a concrete engine. -/
theorem C8_witness :
    updateRow sampleEngine "missing" [("column1", JSValue.str "x")] = (false, sampleEngine) :=
  C8_updateRow_missing_id sampleEngine "missing" _ (by decide)

/-- C10: `addRowAsync` without a caller-supplied id whose decision function
cancels leaves Model and tree unchanged but has already incremented
`nextRowId`; the next `addRow` without an explicit id therefore synthesizes
`row_<n+1>` where it would have synthesized `row_<n>`. -/
theorem C10_addRowAsync_cancel_skips_id (s : Engine) (rowData : JSObject)
    (f : JSObject → Option JSObject)
    (hid : objGet rowData "id" = none)
    (hf : f (buildNewRow s.tableObject.headers rowData
              (JSValue.str ("row_" ++ natToStr s.nextRowId))) = none) :
    addRowAsync s rowData (some f) = (none, { s with nextRowId := s.nextRowId + 1 }) ∧
    objGet (addRow s rowData).1 "id" =
      some (JSValue.str ("row_" ++ natToStr s.nextRowId)) ∧
    objGet (addRow { s with nextRowId := s.nextRowId + 1 } rowData).1 "id" =
      some (JSValue.str ("row_" ++ natToStr (s.nextRowId + 1))) := by
  have hres : ∀ n, resolveRowId rowData n = (JSValue.str ("row_" ++ natToStr n), n + 1) := by
    intro n
    unfold resolveRowId
    rw [hid]
    rfl
  refine ⟨?_, ?_, ?_⟩
  · unfold addRowAsync
    rw [hres]
    simp [hf]
  · unfold addRow
    rw [hres]
    simpa using objGet_buildNewRow_id _ _ _ hid
  · unfold addRow
    rw [hres]
    simpa using objGet_buildNewRow_id _ _ _ hid

/-- Witness for C10 at a concrete engine. -/
theorem C10_witness :
    addRowAsync sampleEngine [] (some fun _ => none) =
        (none, { sampleEngine with nextRowId := 3 }) ∧
    objGet (addRow sampleEngine []).1 "id" = some (JSValue.str "row_2") ∧
    objGet (addRow { sampleEngine with nextRowId := 3 } []).1 "id" =
      some (JSValue.str "row_3") :=
  C10_addRowAsync_cancel_skips_id sampleEngine [] _ rfl rfl

end HTMLTableKit

namespace HTMLTableKit

/-- C4 as stated is false: an update set containing an `id` key changes the
row's identity — `updateRow("row_0", {id: "other"})` succeeds and the row's
identity becomes `"other"`. -/
theorem C4_counterexample :
    (updateRow sampleEngine "row_0" [("id", JSValue.str "other")]).1 = true ∧
    ((sampleEngine.tableObject.rows[0]?).map (fun r => objGet r "id")) =
      some (some (JSValue.str "row_0")) ∧
    (((updateRow sampleEngine "row_0" [("id", JSValue.str "other")]).2.tableObject.rows[0]?).map
        (fun r => objGet r "id")) = some (some (JSValue.str "other")) := by decide

/-- C4 (amended): a successful `updateRow` or `updateRowAsync` leaves the
affected row's identity unchanged provided the applied update set (the
caller's updates, or the decision function's returned object) has no `id`
key. -/
theorem C4_update_preserves_id (s : Engine) (id : String) (U : JSObject) (i : Nat)
    (hfind : findRowIdx s.tableObject.rows id = some i) :
    (objGet U "id" = none →
      ((updateRow s id U).2.tableObject.rows[i]?).map (fun r => objGet r "id") =
        (s.tableObject.rows[i]?).map (fun r => objGet r "id")) ∧
    (∀ (f : JSObject → JSObject → Option JSObject) (R : JSObject),
      f ((s.tableObject.rows[i]?).getD []) U = some R → objGet R "id" = none →
      ((updateRowAsync s id U (some f)).2.tableObject.rows[i]?).map (fun r => objGet r "id") =
        (s.tableObject.rows[i]?).map (fun r => objGet r "id")) := by
  have hlt : i < s.tableObject.rows.length := (findRowIdx_some_mem _ _ _ hfind).1
  have hrow : (s.tableObject.rows[i]?).getD [] = s.tableObject.rows[i] := by
    rw [List.getElem?_eq_getElem hlt]
    rfl
  constructor
  · intro hU
    unfold updateRow
    rw [hfind]
    simp only [List.getElem?_set_self hlt, List.getElem?_eq_getElem hlt, hrow]
    simp [objGet_objAssign_of_none _ _ _ hU]
  · intro f R hf hR
    unfold updateRowAsync
    rw [hfind]
    simp only [hrow] at hf
    simp only [hrow, hf]
    simp only [List.getElem?_set_self hlt, List.getElem?_eq_getElem hlt]
    simp [objGet_objAssign_of_none _ _ _ hR]

/-- Witness for C4 (amended) at a concrete engine. -/
theorem C4_witness :
    ((objGet [("column1", JSValue.int 5)] "id" = none →
      ((updateRow sampleEngine "row_0" [("column1", JSValue.int 5)]).2.tableObject.rows[0]?).map
          (fun r => objGet r "id") =
        (sampleEngine.tableObject.rows[0]?).map (fun r => objGet r "id")) ∧
    (∀ (f : JSObject → JSObject → Option JSObject) (R : JSObject),
      f ((sampleEngine.tableObject.rows[0]?).getD []) [("column1", JSValue.int 5)] = some R →
      objGet R "id" = none →
      ((updateRowAsync sampleEngine "row_0" [("column1", JSValue.int 5)]
          (some f)).2.tableObject.rows[0]?).map (fun r => objGet r "id") =
        (sampleEngine.tableObject.rows[0]?).map (fun r => objGet r "id"))) :=
  C4_update_preserves_id sampleEngine "row_0" [("column1", JSValue.int 5)] 0 (by decide)

end HTMLTableKit

namespace HTMLTableKit

theorem genNext_le (n : Nat) (r : TreeRow) (i : Nat) : n ≤ generateRowIdNext n r i := by
  cases r with
  | mk dataId cells =>
    cases dataId with
    | none => exact Nat.le_max_left _ _
    | some v =>
      show n ≤ if (v == "") = true then max n (i + 1) else n
      split
      · exact Nat.le_max_left _ _
      · exact le_refl n

theorem foldl_genNext_le (l : List (Nat × TreeRow)) (n : Nat) :
    n ≤ l.foldl (fun m q => generateRowIdNext m q.2 q.1) n := by
  induction l generalizing n with
  | nil => exact le_refl n
  | cons q rest ih =>
    exact le_trans (genNext_le n q.2 q.1) (by simpa using ih (generateRowIdNext n q.2 q.1))

theorem foldl_genNext_gt : ∀ (l : List (Nat × TreeRow)) (n : Nat) (p : Nat × TreeRow),
    p ∈ l → (p.2.dataId = none ∨ p.2.dataId = some "") →
    p.1 < l.foldl (fun m q => generateRowIdNext m q.2 q.1) n := by
  intro l
  induction l with
  | nil =>
    intro n p hp _
    cases hp
  | cons q rest ih =>
    intro n p hp hsyn
    rcases List.mem_cons.mp hp with hq | hmem
    · subst hq
      have h1 : p.1 + 1 ≤ generateRowIdNext n p.2 p.1 := by
        rcases hsyn with h | h <;>
          (unfold generateRowIdNext; rw [h]; exact Nat.le_max_right _ _)
      calc p.1 < p.1 + 1 := Nat.lt_succ_self _
        _ ≤ generateRowIdNext n p.2 p.1 := h1
        _ ≤ _ := foldl_genNext_le rest (generateRowIdNext n p.2 p.1)
    · exact ih (generateRowIdNext n q.2 q.1) p hmem hsyn

theorem parseNextId_gt (t : TableTree) (n i : Nat) (r : TreeRow)
    (hr : (dataRowsOf t)[i]? = some r) (hsyn : r.dataId = none ∨ r.dataId = some "") :
    i < parseNextId t n := by
  unfold parseNextId
  exact foldl_genNext_gt _ n (i, r) (List.mk_mem_enum_iff_getElem?.mpr hr) hsyn

theorem string_data_inj (s t : String) (h : s.data = t.data) : s = t := by
  cases s with
  | mk ds =>
    cases t with
    | mk dt => exact congrArg String.mk h

theorem row_prefix_ne (i j : Nat) (h : i ≠ j) :
    "row_" ++ natToStr i ≠ "row_" ++ natToStr j := by
  intro he
  apply h
  apply natToStr_injective
  apply string_data_inj
  have hd := congrArg String.data he
  rw [String.data_append, String.data_append] at hd
  exact List.append_cancel_left hd

def tC5 : TableTree :=
  { tid := "t", tname := "", hidden := [], theadRows := none, hasTbody := true,
    bodyRows := [⟨some "row_0", [⟨false, "7"⟩]⟩] }

/-- C5 as stated is false: parsing a row with `data-id="row_0"` leaves the
counter at 0 (not `max(0, 0+1) = 1`), and a subsequent `addRow` without a
caller-supplied identity synthesizes `row_0`, colliding with the parsed
row's identity. -/
theorem C5_counterexample :
    parseNextId tC5 0 = 0 ∧
    (initEngine tC5).map (fun s =>
        (s.tableObject.rows.map (fun r => objGet r "id"),
         objGet (addRow s []).1 "id")) =
      some ([some (JSValue.str "row_0")], some (JSValue.str "row_0")) := by decide

/-- C5 (amended): during parsing the counter is advanced past the index of
every row on the synthetic-id path (no truthy `data-id`), those rows get
identity `row_<index>`, and a later `addRow` without a caller-supplied id
synthesizes `row_<nextRowId>`, which differs from the synthesized identity
of every such parsed row. -/
theorem C5_synthetic_parsed_ids_fresh (t : TableTree) (s : Engine) (rowData : JSObject)
    (hs : initEngine t = some s) (hid : objGet rowData "id" = none)
    (i : Nat) (r : TreeRow)
    (hr : (dataRowsOf t)[i]? = some r)
    (hsyn : r.dataId = none ∨ r.dataId = some "") :
    i + 1 ≤ s.nextRowId ∧
    generateRowIdStr r i = "row_" ++ natToStr i ∧
    objGet (addRow s rowData).1 "id" =
      some (JSValue.str ("row_" ++ natToStr s.nextRowId)) ∧
    generateRowIdStr r i ≠ "row_" ++ natToStr s.nextRowId := by
  unfold initEngine at hs
  obtain ⟨tobj, htobj, hseq⟩ := Option.map_eq_some'.mp hs
  have hnext : s.nextRowId = parseNextId t 0 := by rw [← hseq]
  have hlt : i < s.nextRowId := by
    rw [hnext]
    exact parseNextId_gt t 0 i r hr hsyn
  have hgen : generateRowIdStr r i = "row_" ++ natToStr i := by
    rcases hsyn with h | h <;> simp [generateRowIdStr, h]
  refine ⟨hlt, hgen, ?_, ?_⟩
  · have hres : resolveRowId rowData s.nextRowId =
        (JSValue.str ("row_" ++ natToStr s.nextRowId), s.nextRowId + 1) := by
      unfold resolveRowId
      rw [hid]
      rfl
    unfold addRow
    rw [hres]
    simpa using objGet_buildNewRow_id _ _ _ hid
  · rw [hgen]
    exact row_prefix_ne i s.nextRowId (by omega)

/-- Witness for C5 (amended) at a concrete engine. -/
theorem C5_witness :
    0 + 1 ≤ sampleEngine.nextRowId ∧
    generateRowIdStr ⟨none, [⟨false, "1"⟩]⟩ 0 = "row_" ++ natToStr 0 ∧
    objGet (addRow sampleEngine []).1 "id" =
      some (JSValue.str ("row_" ++ natToStr sampleEngine.nextRowId)) ∧
    generateRowIdStr ⟨none, [⟨false, "1"⟩]⟩ 0 ≠ "row_" ++ natToStr sampleEngine.nextRowId :=
  C5_synthetic_parsed_ids_fresh sampleTree sampleEngine [] initEngine_sampleTree rfl 0 _
    (by decide) (Or.inl rfl)

end HTMLTableKit

namespace HTMLTableKit

def tTH : TableTree :=
  { tid := "t", tname := "", hidden := [],
    theadRows := some [⟨none, [⟨true, "name"⟩]⟩],
    hasTbody := true,
    bodyRows := [⟨none, [⟨false, "a"⟩]⟩, ⟨none, [⟨false, "b"⟩]⟩] }

/-- C2 as stated is false: on a table whose detected header sits in a
`thead` while the data sit in a `tbody` (3 tree rows, header detected, so
the claim promises 2 data rows in the Model), the parse produces only one
Model row — the first `tbody` data row is dropped instead of the header. -/
theorem C2_counterexample :
    hasHeaderRow tTH = true ∧
    (allTreeRows tTH).length = 3 ∧
    (parseTableObj tTH).map (fun tobj => tobj.rows.length) = some 1 ∧
    (parseTableObj tTH).map (fun tobj => tobj.rows) =
      some [[("id", JSValue.str "row_0"), ("name", JSValue.str "b")]] := by decide

/-- C2 (amended): the Model's parsed rows are exactly the scanned rows (the
`tbody`'s rows when a `tbody` exists, otherwise all table rows) minus the
first scanned row when a header is detected, each parsed positionally in
order. -/
theorem C2_parsed_rows (t : TableTree) (tobj : TableObject)
    (h : parseTableObj t = some tobj) :
    tobj.rows.length = (scannedRows t).length - startIndex t ∧
    dataRowsOf t = (scannedRows t).drop (if hasHeaderRow t then 1 else 0) ∧
    tobj.rows = (dataRowsOf t).enum.map (fun p => parsedRow (typedHeaders t) p.2 p.1) := by
  obtain ⟨hid, hhid, htobj⟩ := Option.map_eq_some'.mp h
  refine ⟨?_, rfl, by rw [← htobj]; rfl⟩
  rw [← htobj]
  show (parsedRowsOf t).length = _
  unfold parsedRowsOf dataRowsOf
  rw [List.length_map, List.enum_length, List.length_drop]

/-- Witness for C2 (amended) at a concrete tree. -/
theorem C2_witness :
    sampleEngine.tableObject.rows.length =
      (scannedRows sampleTree).length - startIndex sampleTree ∧
    dataRowsOf sampleTree =
      (scannedRows sampleTree).drop (if hasHeaderRow sampleTree then 1 else 0) ∧
    sampleEngine.tableObject.rows =
      (dataRowsOf sampleTree).enum.map
        (fun p => parsedRow (typedHeaders sampleTree) p.2 p.1) :=
  C2_parsed_rows sampleTree sampleEngine.tableObject (by decide)

end HTMLTableKit

namespace HTMLTableKit

/-- The six CRUD operations of the mutation engines, the async variants
carrying their (pure) decision functions. -/
inductive CrudOp where
  | add (rowData : JSObject)
  | addAsync (rowData : JSObject) (f : Option (JSObject → Option JSObject))
  | update (id : String) (u : JSObject)
  | updateAsync (id : String) (u : JSObject) (f : Option (JSObject → JSObject → Option JSObject))
  | del (id : String)
  | delAsync (id : String) (f : Option (JSObject → Bool))

/-- The engine state after a CRUD call. -/
def applyOp (s : Engine) : CrudOp → Engine
  | .add rowData => (addRow s rowData).2
  | .addAsync rowData f => (addRowAsync s rowData f).2
  | .update id u => (updateRow s id u).2
  | .updateAsync id u f => (updateRowAsync s id u f).2
  | .del id => (deleteRow s id).2
  | .delAsync id f => (deleteRowAsync s id f).2

/-- Whether the CRUD call reports success. -/
def opOk (s : Engine) : CrudOp → Bool
  | .add _ => true
  | .addAsync rowData f => (addRowAsync s rowData f).1.isSome
  | .update id u => (updateRow s id u).1
  | .updateAsync id u f => (updateRowAsync s id u f).1
  | .del id => (deleteRow s id).1
  | .delAsync id f => (deleteRowAsync s id f).1

/-- The Model index of the row a successful call affects: the appended
position for a create, the looked-up index otherwise. -/
def affectedIdx (s : Engine) : CrudOp → Option Nat
  | .add _ => some s.tableObject.rows.length
  | .addAsync _ _ => some s.tableObject.rows.length
  | .update id _ => findRowIdx s.tableObject.rows id
  | .updateAsync id _ _ => findRowIdx s.tableObject.rows id
  | .del id => findRowIdx s.tableObject.rows id
  | .delAsync id _ => findRowIdx s.tableObject.rows id

/-- Positional alignment of the Model's row sequence with the tree's data
rows (the scanned rows after the header offset). -/
def alignedState (s : Engine) : Prop :=
  s.tableObject.rows.length = (dataRowsOf s.tree).length

/-- The positional effect of a successful call: the Model's row sequence and
the tree's data-row sequence change at the very same index `i`, which is in
range on both sides before and after the call. -/
def opEffect (op : CrudOp) (i : Nat) (s sNew : Engine) : Prop :=
  match op with
  | .add _ | .addAsync _ _ =>
    i = s.tableObject.rows.length ∧ i = (dataRowsOf s.tree).length ∧
    (∃ row, sNew.tableObject.rows = s.tableObject.rows ++ [row]) ∧
    (∃ frag, dataRowsOf sNew.tree = dataRowsOf s.tree ++ [frag])
  | .update _ _ | .updateAsync _ _ _ =>
    i < s.tableObject.rows.length ∧
    (∃ row, sNew.tableObject.rows = s.tableObject.rows.set i row) ∧
    (∃ frag, dataRowsOf sNew.tree = (dataRowsOf s.tree).set i frag)
  | .del _ | .delAsync _ _ =>
    i < s.tableObject.rows.length ∧
    sNew.tableObject.rows = s.tableObject.rows.eraseIdx i ∧
    dataRowsOf sNew.tree = (dataRowsOf s.tree).eraseIdx i

theorem scannedRows_noThead (t : TableTree) (h : t.theadRows = none) :
    scannedRows t = t.bodyRows := by
  simp [scannedRows, allTreeRows, h]

theorem startIndex_le_body (t : TableTree) (h : t.theadRows = none) :
    startIndex t ≤ t.bodyRows.length := by
  unfold startIndex
  by_cases hh : hasHeaderRow t = true
  · rw [if_pos hh]
    cases hb : t.bodyRows with
    | nil =>
      exfalso
      unfold hasHeaderRow firstChildTr at hh
      rw [h, hb] at hh
      simp at hh
    | cons a l => simp
  · rw [if_neg hh]
    exact Nat.zero_le _

theorem setScannedAt_noThead (t : TableTree) (h : t.theadRows = none) (idx : Nat)
    (r : TreeRow) :
    setScannedAt t idx r = { t with bodyRows := t.bodyRows.set idx r } := by
  unfold setScannedAt
  split
  · rfl
  · simp [h]

theorem removeScannedAt_noThead (t : TableTree) (h : t.theadRows = none) (idx : Nat) :
    removeScannedAt t idx = { t with bodyRows := t.bodyRows.eraseIdx idx } := by
  unfold removeScannedAt
  split
  · rfl
  · simp [h]

theorem drop_eraseIdx_add {α : Type} : ∀ (n : Nat) (l : List α) (i : Nat),
    (l.eraseIdx (n + i)).drop n = (l.drop n).eraseIdx i := by
  intro n
  induction n with
  | zero =>
    intro l i
    simp
  | succ n ih =>
    intro l i
    cases l with
    | nil => simp
    | cons a tl =>
      rw [show n + 1 + i = n + i + 1 by omega, List.eraseIdx_cons_succ,
        List.drop_succ_cons, List.drop_succ_cons, ih tl i]

theorem updateRowInDOM_noThead (t : TableTree) (h : t.theadRows = none)
    (headers : List TableHeader) (row : JSObject) (i : Nat)
    (hb : startIndex t + i < t.bodyRows.length) :
    ∃ frag, updateRowInDOM t headers row i =
      { t with bodyRows := t.bodyRows.set (startIndex t + i) frag } := by
  unfold updateRowInDOM
  simp only [scannedRows_noThead t h, List.getElem?_eq_getElem hb]
  exact ⟨_, setScannedAt_noThead t h _ _⟩

theorem deleteRowFromDOM_noThead (t : TableTree) (h : t.theadRows = none) (i : Nat)
    (hb : startIndex t + i < t.bodyRows.length) :
    deleteRowFromDOM t i = { t with bodyRows := t.bodyRows.eraseIdx (startIndex t + i) } := by
  unfold deleteRowFromDOM
  rw [scannedRows_noThead t h, if_pos hb]
  exact removeScannedAt_noThead t h _

theorem startIndex_congr (t tNew : TableTree) (hp : hasHeaderRow tNew = hasHeaderRow t) :
    startIndex tNew = startIndex t := by
  unfold startIndex
  rw [hp]

theorem dataRowsOf_body_set (t : TableTree) (h : t.theadRows = none) (frag : TreeRow)
    (i : Nat)
    (hpres : hasHeaderRow { t with bodyRows := t.bodyRows.set (startIndex t + i) frag } =
      hasHeaderRow t) :
    dataRowsOf { t with bodyRows := t.bodyRows.set (startIndex t + i) frag } =
      (dataRowsOf t).set i frag := by
  have hsi := startIndex_congr t _ hpres
  unfold dataRowsOf
  rw [scannedRows_noThead { t with bodyRows := t.bodyRows.set (startIndex t + i) frag } h,
    scannedRows_noThead t h, hsi]
  show (t.bodyRows.set (startIndex t + i) frag).drop (startIndex t) =
    (t.bodyRows.drop (startIndex t)).set i frag
  rw [List.drop_set, if_neg (by omega), Nat.add_sub_cancel_left]

theorem dataRowsOf_body_eraseIdx (t : TableTree) (h : t.theadRows = none) (i : Nat)
    (hpres : hasHeaderRow { t with bodyRows := t.bodyRows.eraseIdx (startIndex t + i) } =
      hasHeaderRow t) :
    dataRowsOf { t with bodyRows := t.bodyRows.eraseIdx (startIndex t + i) } =
      (dataRowsOf t).eraseIdx i := by
  have hsi := startIndex_congr t _ hpres
  unfold dataRowsOf
  rw [scannedRows_noThead { t with bodyRows := t.bodyRows.eraseIdx (startIndex t + i) } h,
    scannedRows_noThead t h, hsi]
  show (t.bodyRows.eraseIdx (startIndex t + i)).drop (startIndex t) =
    (t.bodyRows.drop (startIndex t)).eraseIdx i
  rw [drop_eraseIdx_add]

theorem dataRowsOf_body_append (t : TableTree) (h : t.theadRows = none) (frag : TreeRow)
    (hpres : hasHeaderRow { t with bodyRows := t.bodyRows ++ [frag] } = hasHeaderRow t) :
    dataRowsOf { t with bodyRows := t.bodyRows ++ [frag] } = dataRowsOf t ++ [frag] := by
  have hsi := startIndex_congr t _ hpres
  unfold dataRowsOf
  rw [scannedRows_noThead { t with bodyRows := t.bodyRows ++ [frag] } h,
    scannedRows_noThead t h, hsi]
  show (t.bodyRows ++ [frag]).drop (startIndex t) = t.bodyRows.drop (startIndex t) ++ [frag]
  rw [List.drop_append_of_le_length (startIndex_le_body t h)]

end HTMLTableKit

namespace HTMLTableKit

theorem dataRowsOf_length_body (t : TableTree) (h : t.theadRows = none) :
    (dataRowsOf t).length = t.bodyRows.length - startIndex t := by
  unfold dataRowsOf
  rw [scannedRows_noThead _ h, List.length_drop]

theorem addShape (s : Engine) (row2 : JSObject) (nn : Nat) (sNew : Engine)
    (hNew : sNew = { tree := addRowToDOM s.tree s.tableObject.headers row2,
                     tableObject := { s.tableObject with rows := s.tableObject.rows ++ [row2] },
                     nextRowId := nn })
    (hthead : s.tree.theadRows = none) (halign : alignedState s)
    (hpres : hasHeaderRow sNew.tree = hasHeaderRow s.tree) :
    sNew.tree.theadRows = none ∧ alignedState sNew ∧
    s.tableObject.rows.length = (dataRowsOf s.tree).length ∧
    (∃ row, sNew.tableObject.rows = s.tableObject.rows ++ [row]) ∧
    (∃ frag, dataRowsOf sNew.tree = dataRowsOf s.tree ++ [frag]) := by
  subst hNew
  have hdr : dataRowsOf (addRowToDOM s.tree s.tableObject.headers row2) =
      dataRowsOf s.tree ++ [renderedTr s.tableObject.headers row2] :=
    dataRowsOf_body_append s.tree hthead (renderedTr s.tableObject.headers row2) hpres
  refine ⟨hthead, ?_, halign, ⟨row2, rfl⟩, ⟨renderedTr s.tableObject.headers row2, hdr⟩⟩
  show (s.tableObject.rows ++ [row2]).length =
    (dataRowsOf (addRowToDOM s.tree s.tableObject.headers row2)).length
  rw [hdr, List.length_append, List.length_append]
  unfold alignedState at halign
  simp only [List.length_cons, List.length_nil]
  omega

theorem updateShape (s : Engine) (row2 : JSObject) (i : Nat) (sNew : Engine)
    (hNew : sNew = { s with
      tableObject := { s.tableObject with rows := s.tableObject.rows.set i row2 },
      tree := updateRowInDOM s.tree s.tableObject.headers row2 i })
    (hthead : s.tree.theadRows = none) (halign : alignedState s)
    (hilt : i < s.tableObject.rows.length)
    (hpres : hasHeaderRow sNew.tree = hasHeaderRow s.tree) :
    sNew.tree.theadRows = none ∧ alignedState sNew ∧
    i < s.tableObject.rows.length ∧
    (∃ row, sNew.tableObject.rows = s.tableObject.rows.set i row) ∧
    (∃ frag, dataRowsOf sNew.tree = (dataRowsOf s.tree).set i frag) := by
  subst hNew
  have hlen := dataRowsOf_length_body s.tree hthead
  have hsb := startIndex_le_body s.tree hthead
  unfold alignedState at halign
  have hib : startIndex s.tree + i < s.tree.bodyRows.length := by omega
  obtain ⟨frag, hfrag⟩ :=
    updateRowInDOM_noThead s.tree hthead s.tableObject.headers row2 i hib
  have hdr : dataRowsOf (updateRowInDOM s.tree s.tableObject.headers row2 i) =
      (dataRowsOf s.tree).set i frag := by
    rw [hfrag]
    exact dataRowsOf_body_set s.tree hthead frag i (by rw [← hfrag]; exact hpres)
  refine ⟨by rw [hfrag]; exact hthead, ?_, hilt, ⟨row2, rfl⟩, ⟨frag, hdr⟩⟩
  show (s.tableObject.rows.set i row2).length =
    (dataRowsOf (updateRowInDOM s.tree s.tableObject.headers row2 i)).length
  rw [hdr, List.length_set, List.length_set]
  exact halign

theorem delShape (s : Engine) (i : Nat) (sNew : Engine)
    (hNew : sNew = { s with
      tableObject := { s.tableObject with rows := s.tableObject.rows.eraseIdx i },
      tree := deleteRowFromDOM s.tree i })
    (hthead : s.tree.theadRows = none) (halign : alignedState s)
    (hilt : i < s.tableObject.rows.length)
    (hpres : hasHeaderRow sNew.tree = hasHeaderRow s.tree) :
    sNew.tree.theadRows = none ∧ alignedState sNew ∧
    i < s.tableObject.rows.length ∧
    sNew.tableObject.rows = s.tableObject.rows.eraseIdx i ∧
    dataRowsOf sNew.tree = (dataRowsOf s.tree).eraseIdx i := by
  subst hNew
  have hlen := dataRowsOf_length_body s.tree hthead
  have hsb := startIndex_le_body s.tree hthead
  unfold alignedState at halign
  have hib : startIndex s.tree + i < s.tree.bodyRows.length := by omega
  have hdel := deleteRowFromDOM_noThead s.tree hthead i hib
  have hdr : dataRowsOf (deleteRowFromDOM s.tree i) = (dataRowsOf s.tree).eraseIdx i := by
    rw [hdel]
    exact dataRowsOf_body_eraseIdx s.tree hthead i (by rw [← hdel]; exact hpres)
  refine ⟨by rw [hdel]; exact hthead, ?_, hilt, rfl, hdr⟩
  show (s.tableObject.rows.eraseIdx i).length =
    (dataRowsOf (deleteRowFromDOM s.tree i)).length
  rw [hdr, List.length_eraseIdx_of_lt hilt, List.length_eraseIdx_of_lt (by omega)]
  omega

end HTMLTableKit

namespace HTMLTableKit

/-- C3 (amended): (1) parsing always aligns the Model's row count with the
engine's data rows; (2) for a tree without a `thead` the engine's data rows
are exactly the tree's rows minus the detected header row; (3) for every
aligned state on a `thead`-free tree and every successful synchronous or
asynchronous create/update/delete that does not change the result of header
detection, the Model and the tree's data-row sequence change at the same
positional index (append at the end, overwrite at `i`, or removal at `i`),
the index is in range on both sides, and alignment — hence row-count
agreement — is preserved. -/
theorem C3_sequence_invariant :
    (∀ t s, initEngine t = some s → alignedState s) ∧
    (∀ t, t.theadRows = none →
      dataRowsOf t = (allTreeRows t).drop (if hasHeaderRow t then 1 else 0)) ∧
    (∀ s op, s.tree.theadRows = none → alignedState s → opOk s op = true →
      hasHeaderRow (applyOp s op).tree = hasHeaderRow s.tree →
      (applyOp s op).tree.theadRows = none ∧
      alignedState (applyOp s op) ∧
      ∃ i, affectedIdx s op = some i ∧ opEffect op i s (applyOp s op)) := by
  refine ⟨?_, ?_, ?_⟩
  · intro t s hs
    unfold initEngine at hs
    obtain ⟨tobj, hp, hfs⟩ := Option.map_eq_some'.mp hs
    unfold parseTableObj at hp
    obtain ⟨hid, hh, htobj⟩ := Option.map_eq_some'.mp hp
    subst hfs
    show tobj.rows.length = _
    rw [← htobj]
    show (parsedRowsOf t).length = (dataRowsOf t).length
    unfold parsedRowsOf
    rw [List.length_map, List.enum_length]
  · intro t h
    simp [dataRowsOf, scannedRows_noThead t h, allTreeRows, h, startIndex]
  · intro s op hthead halign hok hpres
    cases op with
    | add rowData =>
      obtain ⟨hth, hal, hlen, hrow, hfrag⟩ :=
        addShape s
          (buildNewRow s.tableObject.headers rowData (resolveRowId rowData s.nextRowId).1)
          (resolveRowId rowData s.nextRowId).2 (applyOp s (.add rowData)) rfl
          hthead halign hpres
      exact ⟨hth, hal, s.tableObject.rows.length, rfl, rfl, hlen, hrow, hfrag⟩
    | addAsync rowData f =>
      cases f with
      | none =>
        obtain ⟨hth, hal, hlen, hrow, hfrag⟩ :=
          addShape s
            (buildNewRow s.tableObject.headers rowData (resolveRowId rowData s.nextRowId).1)
            (resolveRowId rowData s.nextRowId).2 (applyOp s (.addAsync rowData none)) rfl
            hthead halign hpres
        exact ⟨hth, hal, s.tableObject.rows.length, rfl, rfl, hlen, hrow, hfrag⟩
      | some g =>
        rcases hres : resolveRowId rowData s.nextRowId with ⟨idv, n2⟩
        cases hdec : g (buildNewRow s.tableObject.headers rowData idv) with
        | none =>
          exfalso
          simp only [opOk] at hok
          unfold addRowAsync at hok
          rw [hres] at hok
          simp only [hdec] at hok
          simp at hok
        | some result =>
          have happ : applyOp s (.addAsync rowData (some g)) =
              { tree := addRowToDOM s.tree s.tableObject.headers (objAssign (buildNewRow s.tableObject.headers rowData idv) result),
                tableObject := { s.tableObject with rows := s.tableObject.rows ++ [objAssign (buildNewRow s.tableObject.headers rowData idv) result] },
                nextRowId := n2 } := by
            show (addRowAsync s rowData (some g)).2 = _
            unfold addRowAsync
            rw [hres]
            simp only [hdec]
          obtain ⟨hth, hal, hlen, hrow, hfrag⟩ :=
            addShape s (objAssign (buildNewRow s.tableObject.headers rowData idv) result)
              n2 (applyOp s (.addAsync rowData (some g))) happ hthead halign hpres
          exact ⟨hth, hal, s.tableObject.rows.length, rfl, rfl, hlen, hrow, hfrag⟩
    | update id u =>
      cases hfi : findRowIdx s.tableObject.rows id with
      | none =>
        exfalso
        simp only [opOk] at hok
        unfold updateRow at hok
        rw [hfi] at hok
        simp at hok
      | some i =>
        have hilt := (findRowIdx_some_mem _ _ _ hfi).1
        have happ : applyOp s (CrudOp.update id u) =
            { s with
              tableObject := { s.tableObject with rows := s.tableObject.rows.set i (objAssign ((s.tableObject.rows[i]?).getD []) u) },
              tree := updateRowInDOM s.tree s.tableObject.headers (objAssign ((s.tableObject.rows[i]?).getD []) u) i } := by
          show (updateRow s id u).2 = _
          unfold updateRow
          rw [hfi]
        obtain ⟨hth, hal, hlt2, hrow, hfrag⟩ :=
          updateShape s (objAssign ((s.tableObject.rows[i]?).getD []) u) i
            (applyOp s (CrudOp.update id u)) happ hthead halign hilt hpres
        exact ⟨hth, hal, i, hfi, hlt2, hrow, hfrag⟩
    | updateAsync id u f =>
      cases hfi : findRowIdx s.tableObject.rows id with
      | none =>
        exfalso
        simp only [opOk] at hok
        unfold updateRowAsync at hok
        rw [hfi] at hok
        simp at hok
      | some i =>
        have hilt := (findRowIdx_some_mem _ _ _ hfi).1
        cases f with
        | none =>
          have happ : applyOp s (CrudOp.updateAsync id u none) =
              { s with
                tableObject := { s.tableObject with rows := s.tableObject.rows.set i (objAssign ((s.tableObject.rows[i]?).getD []) u) },
                tree := updateRowInDOM s.tree s.tableObject.headers (objAssign ((s.tableObject.rows[i]?).getD []) u) i } := by
            show (updateRowAsync s id u none).2 = _
            unfold updateRowAsync
            rw [hfi]
          obtain ⟨hth, hal, hlt2, hrow, hfrag⟩ :=
            updateShape s (objAssign ((s.tableObject.rows[i]?).getD []) u) i
              (applyOp s (CrudOp.updateAsync id u none)) happ hthead halign hilt hpres
          exact ⟨hth, hal, i, hfi, hlt2, hrow, hfrag⟩
        | some g =>
          cases hdec : g ((s.tableObject.rows[i]?).getD []) u with
          | none =>
            exfalso
            simp only [opOk] at hok
            unfold updateRowAsync at hok
            rw [hfi] at hok
            simp only [hdec] at hok
            simp at hok
          | some u2 =>
            have happ : applyOp s (CrudOp.updateAsync id u (some g)) =
                { s with
                  tableObject := { s.tableObject with rows := s.tableObject.rows.set i (objAssign ((s.tableObject.rows[i]?).getD []) u2) },
                  tree := updateRowInDOM s.tree s.tableObject.headers (objAssign ((s.tableObject.rows[i]?).getD []) u2) i } := by
              show (updateRowAsync s id u (some g)).2 = _
              unfold updateRowAsync
              rw [hfi]
              simp only [hdec]
            obtain ⟨hth, hal, hlt2, hrow, hfrag⟩ :=
              updateShape s (objAssign ((s.tableObject.rows[i]?).getD []) u2) i
                (applyOp s (CrudOp.updateAsync id u (some g))) happ hthead halign hilt hpres
            exact ⟨hth, hal, i, hfi, hlt2, hrow, hfrag⟩
    | del id =>
      cases hfi : findRowIdx s.tableObject.rows id with
      | none =>
        exfalso
        simp only [opOk] at hok
        unfold deleteRow at hok
        rw [hfi] at hok
        simp at hok
      | some i =>
        have hilt := (findRowIdx_some_mem _ _ _ hfi).1
        have happ : applyOp s (CrudOp.del id) =
            { s with
              tableObject := { s.tableObject with rows := s.tableObject.rows.eraseIdx i },
              tree := deleteRowFromDOM s.tree i } := by
          show (deleteRow s id).2 = _
          unfold deleteRow
          rw [hfi]
        obtain ⟨hth, hal, hlt2, hrow, hfrag⟩ :=
          delShape s i (applyOp s (CrudOp.del id)) happ hthead halign hilt hpres
        exact ⟨hth, hal, i, hfi, hlt2, hrow, hfrag⟩
    | delAsync id f =>
      cases hfi : findRowIdx s.tableObject.rows id with
      | none =>
        exfalso
        simp only [opOk] at hok
        unfold deleteRowAsync at hok
        rw [hfi] at hok
        simp at hok
      | some i =>
        have hilt := (findRowIdx_some_mem _ _ _ hfi).1
        cases f with
        | none =>
          have happ : applyOp s (CrudOp.delAsync id none) =
              { s with
                tableObject := { s.tableObject with rows := s.tableObject.rows.eraseIdx i },
                tree := deleteRowFromDOM s.tree i } := by
            show (deleteRowAsync s id none).2 = _
            unfold deleteRowAsync
            rw [hfi]
            simp
          obtain ⟨hth, hal, hlt2, hrow, hfrag⟩ :=
            delShape s i (applyOp s (CrudOp.delAsync id none)) happ hthead halign hilt hpres
          exact ⟨hth, hal, i, hfi, hlt2, hrow, hfrag⟩
        | some g =>
          cases hdec : g ((s.tableObject.rows[i]?).getD []) with
          | false =>
            exfalso
            simp only [opOk] at hok
            unfold deleteRowAsync at hok
            rw [hfi] at hok
            simp only [hdec] at hok
            simp at hok
          | true =>
            have happ : applyOp s (CrudOp.delAsync id (some g)) =
                { s with
                  tableObject := { s.tableObject with rows := s.tableObject.rows.eraseIdx i },
                  tree := deleteRowFromDOM s.tree i } := by
              show (deleteRowAsync s id (some g)).2 = _
              unfold deleteRowAsync
              rw [hfi]
              simp [hdec]
            obtain ⟨hth, hal, hlt2, hrow, hfrag⟩ :=
              delShape s i (applyOp s (CrudOp.delAsync id (some g))) happ hthead halign hilt hpres
            exact ⟨hth, hal, i, hfi, hlt2, hrow, hfrag⟩

end HTMLTableKit

namespace HTMLTableKit

/-- C3 as stated is false: after parsing a `thead`-header / `tbody`-data
table, a successful `updateRow` leaves the affected row at Model index 0
while its rewritten fragment sits at index 1 of the tree's data rows (the
rows minus the detected header), and the Model has 1 row against 2 tree
data rows immediately after the call returns. -/
theorem C3_counterexample :
    ((initEngine tTH).map fun s =>
      let p := updateRow s "row_0" [("name", JSValue.str "c")]
      (p.1, hasHeaderRow p.2.tree, p.2.tableObject.rows.length,
        ((allTreeRows p.2.tree).drop 1).length,
        findRowIdx p.2.tableObject.rows "row_0",
        ((allTreeRows p.2.tree).drop 1).findIdx? (fun r => (r.cells.map (fun c => c.text)) = ["c"]))) =
      some (true, true, 1, 2, some 0, some 1) := by rfl

end HTMLTableKit
